import Mathlib

/-!
Verification of the HR risk / attendance-monitor analytics core.

This file gives a shallow embedding, in Lean 4, of the analytical core of the
repository (risk-tier bucketing, threshold auto-correction, column
normalization, range validation, attendance-anomaly detection, the rule-based
attrition score, identifier pseudonymization and the row-shape of the
prediction pipeline), and proves or refutes the frozen specification claims
about it.

Conventions of the embedding:
- pandas numeric cells are modelled as `Option ℚ`: `none` is a NaN (a missing
  value or a value that numeric coercion failed to parse), `some q` a finite
  numeric value.  Floating point is modelled by exact rationals.
- dates are modelled by their day number as `ℤ`; the pandas expression
  `(dt - prev).days` on whole dates is exact integer subtraction.
- a pandas `raise` is modelled by `Except`: `Except.error` carries the error
  payload and excludes any (partial) output.
-/

namespace HrRisk

/-! ### Risk-tier bucketing (src/modules/risk_model.py and src/app.py)

Both `predict_attrition` (fixed bins `[-0.1, 40, 70, 100]`) and the UI
re-bucketing pass (bins `[-0.1, _med, _high, 100]`) classify the rounded
probability percentage with `pd.cut(p, bins, labels=["Low","Medium","High"])`.
`pd.cut` uses right-closed intervals by default, so the three buckets are
`(-0.1, med]`, `(med, high]` and `(high, 100]`; a value outside `(-0.1, 100]`
gets no label (NaN). -/

/-- The `pd.cut` bucketing with bins `[-0.1, med, high, 100]` and labels
Low/Medium/High, as used both in `predict_attrition` and in the app-level
re-bucketing pass. Returns `none` for values outside every bin (pandas NaN). -/
def cutRisk (med high p : ℚ) : Option String :=
  if -1/10 < p ∧ p ≤ med then some "Low"
  else if med < p ∧ p ≤ high then some "Medium"
  else if high < p ∧ p ≤ 100 then some "High"
  else none

/-- Default bins of `predict_attrition`: med = 40, high = 70. -/
def cutRiskDefault (p : ℚ) : Option String := cutRisk 40 70 p

/-! ### Threshold auto-correction (src/app.py, tab1)

`_med = attr_med_thr; if _med >= _high: _med = _high - 1` before the
re-bucketing `pd.cut`. -/

/-- The effective medium threshold used by the re-bucketing pass in
`src/app.py`: the supplied medium, forced down to `high - 1` whenever it is
not strictly below the supplied high threshold. -/
def effectiveMed (med high : ℤ) : ℤ :=
  if med ≥ high then high - 1 else med

/-! ### Paid-leave-utilization rescaling (src/modules/utils.py, normalize_hr_columns)

The code computes `ser_num = pd.to_numeric(col, errors="coerce")`, then
`ser_max_val = float(ser_num.fillna(-1.0).max())`, and multiplies by 100 only
when `0.0 <= ser_max_val <= 1.0`; otherwise it writes back `ser_num`
unchanged.  The column is a `List (Option ℚ)` (already coerced). -/

/-- The value of `ser_num.fillna(-1.0).max()`: the maximum of the column after
replacing every NaN by `-1.0`; `none` when the column is empty (pandas then
yields NaN and the `0.0 <= nan <= 1.0` test is false). -/
def filledMax (vals : List (Option ℚ)) : Option ℚ :=
  match vals.map (fun o => o.getD (-1)) with
  | [] => none
  | h :: t => some (t.foldl max h)

/-- The rescaling branch of `normalize_hr_columns` for the 有給取得率 column:
multiply every (parsed) value by 100 exactly when the NaN-filled maximum is
between 0.0 and 1.0 inclusive; otherwise pass the coerced values through. -/
def normalizePTO (vals : List (Option ℚ)) : List (Option ℚ)  :=
  match filledMax vals with
  | some m => if 0 ≤ m ∧ m ≤ 1 then vals.map (Option.map (· * 100)) else vals
  | none => vals

/-- The observed maximum of the column in the sense of the specification text:
the maximum over the values that did parse as numbers, ignoring NaNs
(`none` when no value parsed). Used only to state the claim. -/
def observedMax (vals : List (Option ℚ)) : Option ℚ :=
  match vals.filterMap id with
  | [] => none
  | h :: t => some (t.foldl max h)

/-! ### Out-of-range counting (src/modules/utils.py, count_out_of_range)

Both validators define
```
s = pd.to_numeric(series, errors="coerce")
mask = False-series
if min_v is not None: mask |= s < min_v
if max_v is not None: mask |= s > max_v
return int(mask.fillna(True).sum())
```
A pandas comparison of NaN with a number is `False`, so `mask` is a plain
boolean series and never contains NaN; the trailing `.fillna(True)` is a
no-op.  Hence NaN rows are NOT counted, despite the adjacent comment
("ここでは不正としてカウント") saying that they are. -/

/-- One row of the out-of-range mask: `(s < lo) | (s > hi)` with pandas
semantics, where a comparison involving NaN is false. -/
def outOfRangeCell (lo hi : Option ℚ) (v : Option ℚ) : Bool :=
  (match v, lo with
   | some x, some l => decide (x < l)
   | _, _ => false) ||
  (match v, hi with
   | some x, some h => decide (h < x)
   | _, _ => false)

/-- `count_out_of_range` of both validators: the number of true entries of the
mask (the `fillna(True)` in the source acts on a NaN-free boolean mask and
changes nothing). -/
def countOutOfRange (vals : List (Option ℚ)) (lo hi : Option ℚ) : ℕ :=
  (vals.filter (outOfRangeCell lo hi)).length

/-- The count the claim describes: unparseable/NaN cells plus cells strictly
below `lo` plus cells strictly above `hi`. Used only to state the claim. -/
def claimedOutOfRange (vals : List (Option ℚ)) (lo hi : ℚ) : ℕ :=
  (vals.filter (fun v =>
    match v with
    | none => true
    | some x => decide (x < lo) || decide (hi < x))).length

/-! ## Claim theorems: bucketing, thresholds, normalization, range counting -/

/-- Claim C1, counterexample: the claim says the boundary value `p = med`
belongs to the upper tier (Medium), but `pd.cut` is right-closed, so with the
default bins (med = 40, high = 70) the probability 40 is bucketed Low, and
likewise 70 is bucketed Medium, not High. -/
theorem c1_boundary_lower_tier :
    cutRiskDefault 40 = some "Low" ∧ cutRiskDefault 40 ≠ some "Medium" ∧
    cutRiskDefault 70 = some "Medium" ∧ cutRiskDefault 70 ≠ some "High" := by
  have h40 : cutRiskDefault 40 = some "Low" := by
    rw [cutRiskDefault, cutRisk, if_pos (by norm_num)]
  have h70 : cutRiskDefault 70 = some "Medium" := by
    rw [cutRiskDefault, cutRisk, if_neg (by norm_num), if_pos (by norm_num)]
  exact ⟨h40, by rw [h40]; decide, h70, by rw [h70]; decide⟩

/-- Claim C1, amended: for thresholds `med < high` drawn from the valid range
(0 ≤ med, high ≤ 100) and a probability percentage 0 ≤ p ≤ 100, the bucketing
applied by both `predict_attrition` (med = 40, high = 70) and the UI
re-bucketing pass assigns Low when p ≤ med, Medium when med < p ≤ high, and
High when p > high; boundary values belong to the LOWER tier. -/
theorem c1_bucketing_spec (med high p : ℚ)
    (hmh : med < high) (hm0 : 0 ≤ med) (hh : high ≤ 100)
    (hp0 : 0 ≤ p) (hp1 : p ≤ 100) :
    (cutRisk med high p = some "Low" ↔ p ≤ med) ∧
    (cutRisk med high p = some "Medium" ↔ med < p ∧ p ≤ high) ∧
    (cutRisk med high p = some "High" ↔ high < p) := by
  have hlow : -1/10 < p := by linarith
  unfold cutRisk
  split_ifs with h1 h2 h3
  · refine ⟨⟨fun _ => h1.2, fun _ => rfl⟩, ?_, ?_⟩
    · constructor
      · intro h; exact absurd h (by decide)
      · intro h; exfalso; linarith [h1.2, h.1]
    · constructor
      · intro h; exact absurd h (by decide)
      · intro h; exfalso; linarith [h1.2]
  · refine ⟨?_, ⟨fun _ => h2, fun _ => rfl⟩, ?_⟩
    · constructor
      · intro h; exact absurd h (by decide)
      · intro h; exfalso; linarith [h2.1]
    · constructor
      · intro h; exact absurd h (by decide)
      · intro h; exfalso; linarith [h2.2]
  · refine ⟨?_, ?_, ⟨fun _ => h3.1, fun _ => rfl⟩⟩
    · constructor
      · intro h; exact absurd h (by decide)
      · intro h; exfalso; linarith [h3.1]
    · constructor
      · intro h; exact absurd h (by decide)
      · intro h; exfalso; linarith [h3.1, h.2]
  · exfalso
    push_neg at h1 h2 h3
    have hx1 : med < p := h1 hlow
    have hx2 : high < p := h2 hx1
    have hx3 : 100 < p := h3 hx2
    linarith

/-- Witness for `c1_bucketing_spec` at med = 40, high = 70, p = 55. -/
theorem c1_bucketing_spec_witness :
    ((40 : ℚ) < 70 ∧ (0:ℚ) ≤ 40 ∧ (70:ℚ) ≤ 100 ∧ (0:ℚ) ≤ 55 ∧ (55:ℚ) ≤ 100) ∧
    ((cutRisk 40 70 55 = some "Low" ↔ (55:ℚ) ≤ 40) ∧
     (cutRisk 40 70 55 = some "Medium" ↔ (40:ℚ) < 55 ∧ (55:ℚ) ≤ 70) ∧
     (cutRisk 40 70 55 = some "High" ↔ (70:ℚ) < 55)) :=
  ⟨by norm_num,
   c1_bucketing_spec 40 70 55 (by norm_num) (by norm_num) (by norm_num)
     (by norm_num) (by norm_num)⟩

/-- Claim C5: if the supplied medium threshold is ≥ the supplied high
threshold, the effective medium used by the re-bucketing pass is `high - 1`,
so that the bins actually applied satisfy medium < high. -/
theorem c5_effective_med (med high : ℤ) (h : med ≥ high) :
    effectiveMed med high = high - 1 ∧ effectiveMed med high < high := by
  rw [effectiveMed, if_pos h]
  omega

/-- Witness for `c5_effective_med` at med = 80, high = 70. -/
theorem c5_effective_med_witness :
    (80 : ℤ) ≥ 70 ∧ (effectiveMed 80 70 = 70 - 1 ∧ effectiveMed 80 70 < 70) :=
  ⟨by decide, c5_effective_med 80 70 (by decide)⟩

/-- Claim C3, counterexample: on the single-cell column `[-1/2]` the observed
maximum numeric value is `-1/2 ≤ 1.0`, so the claim requires every value to be
multiplied by 100 (giving `[-50]`), but `normalize_hr_columns` requires the
NaN-filled maximum to also be ≥ 0 and leaves the column unchanged. -/
theorem c3_negative_max_not_scaled :
    observedMax [some (-(1:ℚ)/2)] = some (-(1:ℚ)/2) ∧ (-(1:ℚ)/2) ≤ 1 ∧
    normalizePTO [some (-(1:ℚ)/2)] = [some (-(1:ℚ)/2)] ∧
    normalizePTO [some (-(1:ℚ)/2)] ≠ [some ((-(1:ℚ)/2) * 100)] := by
  refine ⟨rfl, by norm_num, ?_, ?_⟩
  · simp [normalizePTO, filledMax]
    norm_num
  · simp [normalizePTO, filledMax]
    norm_num

/-- Claim C3, amended: `normalize_hr_columns` multiplies every
paid-leave-utilization value by 100 exactly when the column maximum — computed
after replacing unparseable/missing values by −1.0 — lies in [0, 1]; in every
other case (including a negative maximum and the empty column) the values pass
through unchanged beyond numeric coercion. -/
theorem c3_pto_rescaling (vals : List (Option ℚ)) (m : ℚ)
    (hm : filledMax vals = some m) :
    ((0 ≤ m ∧ m ≤ 1) → normalizePTO vals = vals.map (Option.map (· * 100))) ∧
    (¬ (0 ≤ m ∧ m ≤ 1) → normalizePTO vals = vals) := by
  constructor
  · intro h
    rw [normalizePTO, hm]
    simp [h]
  · intro h
    rw [normalizePTO, hm]
    simp [h]

/-- Witness for `c3_pto_rescaling` on the column `[0.5, NaN]`, whose
NaN-filled maximum is 0.5, hence rescaled. -/
theorem c3_pto_rescaling_witness :
    filledMax [some (1/2 : ℚ), none] = some (1/2 : ℚ) ∧
    (((0:ℚ) ≤ 1/2 ∧ (1/2:ℚ) ≤ 1) →
      normalizePTO [some (1/2 : ℚ), none] =
        [some (1/2 : ℚ), none].map (Option.map (· * 100))) ∧
    (¬ ((0:ℚ) ≤ 1/2 ∧ (1/2:ℚ) ≤ 1) →
      normalizePTO [some (1/2 : ℚ), none] = [some (1/2 : ℚ), none]) := by
  have h : filledMax [some (1/2 : ℚ), none] = some (1/2 : ℚ) := by
    simp [filledMax]
    norm_num
  exact ⟨h, c3_pto_rescaling _ _ h⟩

/-- Claim C10, code evaluated at the failing input: a required-column cell
that fails numeric coercion (NaN) is NOT counted by `count_out_of_range`
(the mask is a NaN-free boolean series, so the `fillna(True)` written to count
NaNs as invalid never fires), while the claim — and the comment in the code —
say it counts; on the one-cell column `[NaN]` with range [0, 100] the code
returns 0 where the claim requires 1. -/
theorem c10_nan_not_counted :
    countOutOfRange [none] (some 0) (some 100) = 0 ∧
    claimedOutOfRange [none] 0 100 = 1 ∧
    countOutOfRange [none] (some 0) (some 100) ≠ claimedOutOfRange [none] 0 100 := by
  refine ⟨rfl, rfl, by decide⟩

/-! ### Consecutive-workday streak (src/modules/attendance_check.py, longest_streak)

`longest_streak(dates, hours)` walks one employee group in date order keeping
`current`; a row is worked iff `h > 0`; a worked row increments `current` when
there is no previous row or the day gap to it is ≤ 1, resets it to 1 when the
gap is > 1, and a non-worked row resets it to 0.  Rows are `(date, hours)`
pairs with the date as a day number. -/

/-- Whether a row counts as worked: the `worked = h > 0` test of
`longest_streak`. -/
def workedRow (h : ℚ) : Bool := decide (0 < h)

/-- The `prev is None or (dt - prev).days <= 1` disjunction of
`longest_streak`. -/
def prevOk (prev : Option ℤ) (dt : ℤ) : Prop :=
  match prev with
  | none => True
  | some p => dt - p ≤ 1

instance (prev : Option ℤ) (dt : ℤ) : Decidable (prevOk prev dt) :=
  match prev with
  | none => isTrue trivial
  | some p => inferInstanceAs (Decidable (dt - p ≤ 1))

/-- One iteration of the `longest_streak` loop body: the new value of
`current` given the previous date (if any), the current counter and the row. -/
def streakStep (prev : Option ℤ) (cur : ℕ) (dt : ℤ) (h : ℚ) : ℕ :=
  if 0 < h then
    if prevOk prev dt then cur + 1 else 1
  else 0

/-- The `streaks` list built by `longest_streak` starting from state
`(prev, cur)`. -/
def streakAux (prev : Option ℤ) (cur : ℕ) : List (ℤ × ℚ) → List ℕ
  | [] => []
  | (dt, h) :: rest =>
      streakStep prev cur dt h :: streakAux (some dt) (streakStep prev cur dt h) rest

/-- The per-row streak counters of one employee group (`prev = None`,
`current = 0` initially). -/
def streakList (rows : List (ℤ × ℚ)) : List ℕ := streakAux none 0 rows

/-- The long-streak flags: `連続出勤日数 >= streak_threshold` per row. -/
def streakFlags (thr : ℕ) (rows : List (ℤ × ℚ)) : List Bool :=
  (streakList rows).map (fun c => decide (thr ≤ c))

theorem streakAux_length (rows : List (ℤ × ℚ)) :
    ∀ prev cur, (streakAux prev cur rows).length = rows.length := by
  induction rows with
  | nil => intro prev cur; rfl
  | cons r rest ih =>
      intro prev cur
      obtain ⟨dt, h⟩ := r
      simp [streakAux, ih]

theorem streakList_length (rows : List (ℤ × ℚ)) :
    (streakList rows).length = rows.length := streakAux_length rows none 0

theorem getD_map_of_lt {α β : Type} (f : α → β) (l : List α) (i : ℕ)
    (d : α) (d2 : β) (hi : i < l.length) :
    (l.map f).getD i d2 = f (l.getD i d) := by
  have h1 : l[i]? = some (l[i]) := List.getElem?_eq_getElem hi
  have h2 : l.getD i d = l[i] := by
    rw [List.getD_eq_getElem?_getD, h1]; rfl
  rw [List.getD_eq_getElem?_getD, List.getElem?_map, h1, h2]; rfl

theorem streakAux_getD_succ (rows : List (ℤ × ℚ)) :
    ∀ (prev : Option ℤ) (cur i : ℕ), i + 1 < rows.length →
      (streakAux prev cur rows).getD (i + 1) 0 =
        streakStep (some (rows.getD i (0, 0)).1)
          ((streakAux prev cur rows).getD i 0)
          (rows.getD (i + 1) (0, 0)).1 (rows.getD (i + 1) (0, 0)).2 := by
  induction rows with
  | nil => intro prev cur i hlen; simp at hlen
  | cons r rest ih =>
      intro prev cur i hlen
      obtain ⟨dt, h⟩ := r
      match i with
      | 0 =>
          match rest, hlen with
          | (dt2, h2) :: rest2, _ =>
              simp [streakAux, List.getD_cons_succ, List.getD_cons_zero]
      | Nat.succ j =>
          have hlen2 : j + 1 < rest.length := by
            simpa [List.length_cons] using hlen
          calc (streakAux prev cur ((dt, h) :: rest)).getD (j + 2) 0
              = (streakAux (some dt) (streakStep prev cur dt h) rest).getD (j + 1) 0 := by
                simp [streakAux, List.getD_cons_succ]
            _ = _ := by
                rw [ih (some dt) (streakStep prev cur dt h) j hlen2]
                simp [streakAux, List.getD_cons_succ]

/-- Claim C2: in `longest_streak`, for each employee group in date order the
streak counters satisfy: a row is worked iff its hours are > 0; a worked first
row gets counter 1 (increment from the initial 0); a worked row whose gap to
the previous row is exactly one day increments the previous counter; a worked
row whose gap exceeds one day resets the counter to 1; a non-worked row resets
it to 0; and the long-streak flag of a row is true iff its counter is at least
the streak threshold. -/
theorem c2_streak_spec (rows : List (ℤ × ℚ)) (thr i : ℕ) (hi : i < rows.length) :
    (workedRow (rows.getD i (0, 0)).2 = true ↔ 0 < (rows.getD i (0, 0)).2) ∧
    (0 < (rows.getD i (0, 0)).2 → i = 0 → (streakList rows).getD i 0 = 1) ∧
    (∀ j, i = j + 1 → 0 < (rows.getD i (0, 0)).2 →
      ((rows.getD i (0, 0)).1 - (rows.getD j (0, 0)).1 = 1 →
        (streakList rows).getD i 0 = (streakList rows).getD j 0 + 1) ∧
      (1 < (rows.getD i (0, 0)).1 - (rows.getD j (0, 0)).1 →
        (streakList rows).getD i 0 = 1)) ∧
    (¬ 0 < (rows.getD i (0, 0)).2 → (streakList rows).getD i 0 = 0) ∧
    ((streakFlags thr rows).getD i false = true ↔
      thr ≤ (streakList rows).getD i 0) := by
  refine ⟨decide_eq_true_iff, ?_, ?_, ?_, ?_⟩
  · intro hpos hz
    subst hz
    match rows, hi with
    | (dt, h) :: rest, _ =>
        simp only [List.getD_cons_zero] at hpos
        simp [streakList, streakAux, streakStep, hpos]
  · intro j hij hpos
    subst hij
    have hstep := streakAux_getD_succ rows none 0 j hi
    simp only [streakList] at *
    rw [hstep]
    unfold streakStep
    constructor
    · intro hgap
      rw [if_pos hpos,
          if_pos (show prevOk (some (rows.getD j (0, 0)).1) (rows.getD (j + 1) (0, 0)).1 by
            simp only [prevOk]; omega)]
    · intro hgap
      rw [if_pos hpos,
          if_neg (show ¬ prevOk (some (rows.getD j (0, 0)).1) (rows.getD (j + 1) (0, 0)).1 by
            simp only [prevOk]; omega)]
  · intro hneg
    match i, rows, hi with
    | 0, (dt, h) :: rest, _ =>
        simp only [List.getD_cons_zero] at hneg
        simp [streakList, streakAux, streakStep, hneg]
    | Nat.succ j, rows, hi =>
        have hstep := streakAux_getD_succ rows none 0 j hi
        simp only [streakList] at *
        rw [hstep]
        unfold streakStep
        rw [if_neg hneg]
  · rw [streakFlags,
        getD_map_of_lt _ _ i 0 false (by rw [streakList_length]; exact hi)]
    exact decide_eq_true_iff

/-- A two-row one-employee attendance fragment (two consecutive worked days)
used to instantiate the streak theorem. -/
def c2rows : List (ℤ × ℚ) := [(0, 8), (1, 8)]

/-- Witness for `c2_streak_spec` on `c2rows` at row index 1 with
threshold 2. -/
theorem c2_streak_spec_witness :
    1 < c2rows.length ∧
    ((workedRow (c2rows.getD 1 (0, 0)).2 = true ↔ 0 < (c2rows.getD 1 (0, 0)).2) ∧
     (0 < (c2rows.getD 1 (0, 0)).2 → 1 = 0 → (streakList c2rows).getD 1 0 = 1) ∧
     (∀ j, 1 = j + 1 → 0 < (c2rows.getD 1 (0, 0)).2 →
       ((c2rows.getD 1 (0, 0)).1 - (c2rows.getD j (0, 0)).1 = 1 →
         (streakList c2rows).getD 1 0 = (streakList c2rows).getD j 0 + 1) ∧
       (1 < (c2rows.getD 1 (0, 0)).1 - (c2rows.getD j (0, 0)).1 →
         (streakList c2rows).getD 1 0 = 1)) ∧
     (¬ 0 < (c2rows.getD 1 (0, 0)).2 → (streakList c2rows).getD 1 0 = 0) ∧
     ((streakFlags 2 c2rows).getD 1 false = true ↔
       2 ≤ (streakList c2rows).getD 1 0)) :=
  ⟨by decide, c2_streak_spec c2rows 2 1 (by decide)⟩

/-! ### Per-employee z-score anomaly (src/modules/attendance_check.py, z_anom)

```
m = x.mean(); s = x.std(ddof=0)
if s == 0: return all-False
z = (x - m) / s
return z > z_thresh
```
The standard deviation is the square root of the population variance
(divisor N); `s == 0` iff the variance is 0.  To keep the embedding
executable, the comparison `(v - m) / s > z` is decided by the
square-root-free test `zGTbool` and proven equivalent to the real-number
formula in the claim theorem. -/

/-- The pandas `x.mean()` of one group. -/
def listMean (xs : List ℚ) : ℚ := xs.sum / xs.length

/-- The population variance (`x.std(ddof=0)` squared) of one group. -/
def popVar (xs : List ℚ) : ℚ :=
  ((xs.map (fun x => (x - listMean xs) ^ 2)).sum) / xs.length

/-- Decidable, square-root-free version of `d / sqrt V > z` for `V > 0`. -/
def zGTbool (z d V : ℚ) : Bool :=
  if 0 ≤ z then decide (0 < d ∧ z ^ 2 * V < d ^ 2)
  else decide (0 ≤ d ∨ d ^ 2 < z ^ 2 * V)

/-- The z-score flags of one employee group: all false when the standard
deviation is zero, otherwise the row-wise flag `(v - m) / s > z_thresh`. -/
def zAnomFlags (z : ℚ) (xs : List ℚ) : List Bool :=
  if popVar xs = 0 then List.replicate xs.length false
  else xs.map (fun v => zGTbool z (v - listMean xs) (popVar xs))

theorem zGTbool_iff (z d V : ℚ) (hV : 0 < V) :
    zGTbool z d V = true ↔ (z : ℝ) < (d : ℝ) / Real.sqrt (V : ℝ) := by
  have hVR : (0 : ℝ) < (V : ℝ) := by exact_mod_cast hV
  have hs0 : 0 < Real.sqrt (V : ℝ) := Real.sqrt_pos.mpr hVR
  have hs2 : Real.sqrt (V : ℝ) ^ 2 = (V : ℝ) := Real.sq_sqrt hVR.le
  rw [lt_div_iff hs0]
  unfold zGTbool
  split_ifs with hz
  · rw [decide_eq_true_iff]
    have hzR : (0 : ℝ) ≤ (z : ℝ) := by exact_mod_cast hz
    have hzs : 0 ≤ (z : ℝ) * Real.sqrt (V : ℝ) := mul_nonneg hzR hs0.le
    constructor
    · rintro ⟨hd, hsq⟩
      have hdR : (0 : ℝ) < (d : ℝ) := by exact_mod_cast hd
      have hsqR : (z : ℝ) ^ 2 * (V : ℝ) < (d : ℝ) ^ 2 := by exact_mod_cast hsq
      have h2 : ((z : ℝ) * Real.sqrt (V : ℝ)) ^ 2 < (d : ℝ) ^ 2 := by
        rw [mul_pow, hs2]; exact hsqR
      exact lt_of_pow_lt_pow_left 2 hdR.le h2
    · intro hzd
      have hdR : (0 : ℝ) < (d : ℝ) := lt_of_le_of_lt hzs hzd
      have h2 : ((z : ℝ) * Real.sqrt (V : ℝ)) ^ 2 < (d : ℝ) ^ 2 :=
        pow_lt_pow_left hzd hzs (by norm_num)
      rw [mul_pow, hs2] at h2
      exact ⟨by exact_mod_cast hdR, by exact_mod_cast h2⟩
  · rw [decide_eq_true_iff]
    push_neg at hz
    have hzR : (z : ℝ) < 0 := by exact_mod_cast hz
    have hzs : (z : ℝ) * Real.sqrt (V : ℝ) < 0 := mul_neg_of_neg_of_pos hzR hs0
    constructor
    · rintro (hd | hsq)
      · exact lt_of_lt_of_le hzs (by exact_mod_cast hd)
      · have hdR : (d : ℝ) ^ 2 < (z : ℝ) ^ 2 * (V : ℝ) := by exact_mod_cast hsq
        rw [← hs2, ← mul_pow] at hdR
        by_contra hcon
        push_neg at hcon
        nlinarith [mul_nonpos_of_nonneg_of_nonpos
          (sub_nonneg.mpr hcon)
          (show (z : ℝ) * Real.sqrt (V : ℝ) + (d : ℝ) ≤ 0 by nlinarith)]
    · intro hzd
      rcases le_or_lt 0 d with hd | hd
      · exact Or.inl hd
      · refine Or.inr ?_
        have hdR : (d : ℝ) < 0 := by exact_mod_cast hd
        have h2 : (d : ℝ) ^ 2 < ((z : ℝ) * Real.sqrt (V : ℝ)) ^ 2 := by
          nlinarith
        rw [mul_pow, hs2] at h2
        exact_mod_cast h2

theorem popVar_nonneg (xs : List ℚ) : 0 ≤ popVar xs := by
  unfold popVar
  apply div_nonneg
  · apply List.sum_nonneg
    intro x hx
    simp only [List.mem_map] at hx
    obtain ⟨y, _, rfl⟩ := hx
    positivity
  · positivity

theorem sum_of_all_eq (xs : List ℚ) (c : ℚ) (h : ∀ x ∈ xs, x = c) :
    xs.sum = xs.length * c := by
  induction xs with
  | nil => simp
  | cons a t ih =>
      have ha : a = c := h a (List.mem_cons_self a t)
      have ht := ih (fun x hx => h x (List.mem_cons_of_mem a hx))
      simp [ha, ht]
      ring

theorem popVar_of_all_eq (xs : List ℚ) (h : ∀ a ∈ xs, ∀ b ∈ xs, a = b) :
    popVar xs = 0 := by
  match xs, h with
  | [], _ => simp [popVar, listMean]
  | c :: t, h =>
      have hall : ∀ x ∈ c :: t, x = c := fun x hx =>
        h x hx c (List.mem_cons_self c t)
      have hmean : listMean (c :: t) = c := by
        unfold listMean
        rw [sum_of_all_eq _ c hall]
        have hlen : ((c :: t).length : ℚ) ≠ 0 := by
          simp [List.length_cons]
          positivity
        field_simp
      unfold popVar
      have hz : ∀ y ∈ (c :: t).map (fun x => (x - listMean (c :: t)) ^ 2), y = 0 := by
        intro y hy
        simp only [List.mem_map] at hy
        obtain ⟨x, hx, rfl⟩ := hy
        rw [hall x hx, hmean]
        ring
      rw [sum_of_all_eq _ 0 hz]
      simp

/-- Claim C4: in `z_anom`, a group whose values are all identical (population
standard deviation zero) flags no row, whatever the z threshold; and for a
group with nonzero variance a row is flagged exactly when
`(value - mean) / std > z_threshold`, the one-sided upper-tail test with the
population standard deviation `std = sqrt (popVar)`. -/
theorem c4_zscore_spec (z : ℚ) (xs : List ℚ) :
    ((∀ a ∈ xs, ∀ b ∈ xs, a = b) →
      zAnomFlags z xs = List.replicate xs.length false) ∧
    (popVar xs ≠ 0 → ∀ i, i < xs.length →
      ((zAnomFlags z xs).getD i false = true ↔
        (((xs.getD i 0 : ℚ) : ℝ) - ((listMean xs : ℚ) : ℝ)) /
            Real.sqrt ((popVar xs : ℚ) : ℝ) > (z : ℝ))) := by
  constructor
  · intro h
    rw [zAnomFlags, if_pos (popVar_of_all_eq xs h)]
  · intro hne i hi
    have hpos : 0 < popVar xs := lt_of_le_of_ne (popVar_nonneg xs) (Ne.symm hne)
    rw [zAnomFlags, if_neg hne, getD_map_of_lt _ _ i 0 false hi,
        zGTbool_iff z ((xs.getD i 0) - listMean xs) (popVar xs) hpos,
        gt_iff_lt]
    push_cast
    exact Iff.rfl

/-- Witness for `c4_zscore_spec` at z = 1 on the group [0, 2] (mean 1,
population variance 1) at row index 0. -/
theorem c4_zscore_spec_witness :
    ((∀ a ∈ [(0 : ℚ), 2], ∀ b ∈ [(0 : ℚ), 2], a = b) →
      zAnomFlags 1 [(0 : ℚ), 2] = List.replicate ([(0 : ℚ), 2]).length false) ∧
    (popVar [(0 : ℚ), 2] ≠ 0 → ∀ i, i < ([(0 : ℚ), 2]).length →
      ((zAnomFlags 1 [(0 : ℚ), 2]).getD i false = true ↔
        ((([(0 : ℚ), 2].getD i 0 : ℚ) : ℝ) - ((listMean [(0 : ℚ), 2] : ℚ) : ℝ)) /
            Real.sqrt ((popVar [(0 : ℚ), 2] : ℚ) : ℝ) > ((1 : ℚ) : ℝ))) :=
  c4_zscore_spec 1 [0, 2]

/-! ### detect_attendance_anomalies (src/modules/attendance_check.py)

`ensure_columns(df, REQ)` raises `ValueError` listing the missing required
columns before any computation; the raise is modelled by `Except.error`
carrying the missing-column list (the payload of the formatted message).  The
success branch sorts by (employee, date), groups by employee, computes the
three flags per group and keeps the rows where at least one flag holds. -/

/-- The four mandatory attendance columns `REQ`. -/
def REQ_ATT : List String := ["社員ID", "日付", "勤務時間h", "残業時間h"]

/-- One attendance row (after date parsing): employee id, day number, worked
hours, overtime hours. -/
structure AttRow where
  empId : ℕ
  date : ℤ
  hours : ℚ
  ot : ℚ
deriving DecidableEq

/-- An attendance dataframe: its column names and its rows. -/
structure AttTable where
  cols : List String
  rows : List AttRow

/-- One output row of the anomaly table: the carried columns, the computed
streak and the three flags. -/
structure AnomRow where
  empId : ℕ
  date : ℤ
  hours : ℚ
  ot : ℚ
  streak : ℕ
  zFlag : Bool
  longFlag : Bool
  streakFlag : Bool
deriving DecidableEq

/-- The `missing` list of `ensure_columns`: the required columns not present
in the dataframe, in required order. -/
def missingCols (required cols : List String) : List String :=
  required.filter (fun c => decide (¬ c ∈ cols))

/-- Sort key of `sort_values(["社員ID","日付"])`. -/
def attLE (a b : AttRow) : Bool :=
  decide (a.empId < b.empId) || (decide (a.empId = b.empId) && decide (a.date ≤ b.date))

/-- Annotate one employee group (already date-sorted) with the streak column
and the three flags. -/
def annotateGroup (z longThr : ℚ) (streakThr : ℕ) (g : List AttRow) : List AnomRow :=
  let zs := zAnomFlags z (g.map (fun r => r.ot))
  let ss := streakList (g.map (fun r => (r.date, r.hours)))
  (g.zip (zs.zip ss)).map (fun p =>
    { empId := p.1.empId, date := p.1.date, hours := p.1.hours, ot := p.1.ot,
      streak := p.2.2, zFlag := p.2.1,
      longFlag := decide (longThr ≤ p.1.hours),
      streakFlag := decide (streakThr ≤ p.2.2) })

/-- `detect_attendance_anomalies`: fail with the missing-column list when a
required column is absent; otherwise sort, group by employee, flag, and keep
the rows with at least one flag (sorted again by employee and date). -/
def detectAttendanceAnomalies (z longThr : ℚ) (streakThr : ℕ) (t : AttTable) :
    Except (List String) (List AnomRow) :=
  match missingCols REQ_ATT t.cols with
  | [] =>
      let sorted := t.rows.mergeSort attLE
      let groups := sorted.splitBy (fun a b => a.empId == b.empId)
      let annotated := groups.flatMap (annotateGroup z longThr streakThr)
      let anomalies := annotated.filter (fun r => r.zFlag || r.longFlag || r.streakFlag)
      Except.ok (anomalies.mergeSort (fun a b => attLE ⟨a.empId, a.date, a.hours, a.ot⟩
        ⟨b.empId, b.date, b.hours, b.ot⟩))
  | missing => Except.error missing

/-- Claim C6: when any of the four required attendance columns is absent,
`detect_attendance_anomalies` fails with a missing-columns error whose payload
is exactly the list of missing required columns (a column is in it iff it is
required and absent), and no anomaly output — partial or otherwise — is
produced. -/
theorem c6_missing_columns (z longThr : ℚ) (streakThr : ℕ) (t : AttTable)
    (h : missingCols REQ_ATT t.cols ≠ []) :
    detectAttendanceAnomalies z longThr streakThr t =
      Except.error (missingCols REQ_ATT t.cols) ∧
    (∀ c, c ∈ missingCols REQ_ATT t.cols ↔ c ∈ REQ_ATT ∧ ¬ c ∈ t.cols) ∧
    (∀ out, detectAttendanceAnomalies z longThr streakThr t ≠ Except.ok out) := by
  refine ⟨?_, ?_, ?_⟩
  · cases hm : missingCols REQ_ATT t.cols with
    | nil => exact absurd hm h
    | cons c cs => simp [detectAttendanceAnomalies, hm]
  · intro c
    simp [missingCols]
  · intro out
    cases hm : missingCols REQ_ATT t.cols with
    | nil => exact absurd hm h
    | cons c cs => simp [detectAttendanceAnomalies, hm]

/-- An attendance table lacking the overtime column. -/
def c6table : AttTable := ⟨["社員ID", "日付", "勤務時間h"], []⟩

/-- Witness for `c6_missing_columns` on a table lacking 残業時間h. -/
theorem c6_missing_columns_witness :
    missingCols REQ_ATT c6table.cols ≠ [] ∧
    (detectAttendanceAnomalies 2 11 12 c6table =
      Except.error (missingCols REQ_ATT c6table.cols) ∧
    (∀ c, c ∈ missingCols REQ_ATT c6table.cols ↔ c ∈ REQ_ATT ∧ ¬ c ∈ c6table.cols) ∧
    (∀ out, detectAttendanceAnomalies 2 11 12 c6table ≠ Except.ok out)) :=
  ⟨by decide, c6_missing_columns 2 11 12 c6table (by decide)⟩

/-! ### rule_based_score (src/modules/risk_model.py)

A row is a lookup from column name to the parsed numeric value (`none` when
the column is missing from the row or `float(...)` raises).  Each available
feature contributes `weight * min(max(value / scale, 0), 1)`; the
contributions are summed (0.0 when there are none), scaled by 3, passed
through a logistic transform and clipped to [0, 1]. -/

/-- The seven preferred feature columns. -/
def PREFERRED_FEATURES : List String :=
  ["年齢", "勤続年数", "平均残業時間h", "有給取得率", "評価(1-5)", "昇給回数", "部署異動回数"]

/-- The `min(max(q, 0), 1)` clamp applied to each normalized feature. -/
def clampU (q : ℚ) : ℚ := min (max q 0) 1

/-- The `contributions` list of `rule_based_score`, in source order
(tenure, age, overtime, PTO rate, rating, raises, transfers), with the fixed
weights -0.10, -0.05, 0.18, -0.20, -0.25, -0.10, 0.08. -/
def featContrib (row : String → Option ℚ) : List ℚ :=
  (match row "勤続年数" with
   | some t => [(-(1 : ℚ)/10) * clampU (t / 10)]
   | none => []) ++
  (match row "年齢" with
   | some a => [(-(1 : ℚ)/20) * clampU ((a - 20) / 30)]
   | none => []) ++
  (match row "平均残業時間h" with
   | some o => [((9 : ℚ)/50) * clampU (o / 60)]
   | none => []) ++
  (match row "有給取得率" with
   | some p => [(-(1 : ℚ)/5) * clampU (p / 100)]
   | none => []) ++
  (match row "評価(1-5)" with
   | some r => [(-(1 : ℚ)/4) * clampU ((r - 1) / 4)]
   | none => []) ++
  (match row "昇給回数" with
   | some r => [(-(1 : ℚ)/10) * clampU (r / 5)]
   | none => []) ++
  (match row "部署異動回数" with
   | some m => [((2 : ℚ)/25) * clampU (m / 3)]
   | none => [])

/-- `x = sum(contributions) if contributions else 0.0` (the empty sum is 0,
matching the `else 0.0`). -/
def ruleX (row : String → Option ℚ) : ℚ := (featContrib row).sum

/-- `clip01`: `np.clip(x, 0.0, 1.0)`. -/
noncomputable def clip01 (x : ℝ) : ℝ := min (max x 0) 1

/-- The logistic transform `1 / (1 + np.exp(-x))`. -/
noncomputable def sigmoid (x : ℝ) : ℝ := 1 / (1 + Real.exp (-x))

/-- `rule_based_score`: the clipped logistic of three times the weighted
feature sum. -/
noncomputable def rule_based_score (row : String → Option ℚ) : ℝ :=
  clip01 (sigmoid ((ruleX row : ℝ) * 3))

/-- Round-half-to-even to an integer (`np.round` rounds halves to even). -/
noncomputable def roundHalfEven (x : ℝ) : ℤ :=
  if Int.fract x < 1/2 then ⌊x⌋
  else if 1/2 < Int.fract x then ⌊x⌋ + 1
  else if 2 ∣ ⌊x⌋ then ⌊x⌋ else ⌊x⌋ + 1

/-- The reported probability percentage `np.round(proba * 100.0, 1)`. -/
noncomputable def roundPercent1 (p : ℝ) : ℝ :=
  ((roundHalfEven (p * 100 * 10) : ℤ) : ℝ) / 10

/-- Claim C7: a row in which none of the seven preferred features yields a
parseable numeric value gets `rule_based_score` exactly 0.5 (the sigmoid of
zero), and its reported attrition probability is exactly 50.0 percent. -/
theorem c7_empty_row_score (row : String → Option ℚ)
    (h : ∀ c ∈ PREFERRED_FEATURES, row c = none) :
    rule_based_score row = 1/2 ∧ roundPercent1 (rule_based_score row) = 50 := by
  have h1 : row "勤続年数" = none := h _ (by simp [PREFERRED_FEATURES])
  have h2 : row "年齢" = none := h _ (by simp [PREFERRED_FEATURES])
  have h3 : row "平均残業時間h" = none := h _ (by simp [PREFERRED_FEATURES])
  have h4 : row "有給取得率" = none := h _ (by simp [PREFERRED_FEATURES])
  have h5 : row "評価(1-5)" = none := h _ (by simp [PREFERRED_FEATURES])
  have h6 : row "昇給回数" = none := h _ (by simp [PREFERRED_FEATURES])
  have h7 : row "部署異動回数" = none := h _ (by simp [PREFERRED_FEATURES])
  have hx : ruleX row = 0 := by
    unfold ruleX featContrib
    rw [h1, h2, h3, h4, h5, h6, h7]
    rfl
  have hhalf : rule_based_score row = 1/2 := by
    unfold rule_based_score sigmoid clip01
    rw [hx]
    norm_num [Real.exp_zero]
  refine ⟨hhalf, ?_⟩
  rw [hhalf]
  unfold roundPercent1
  have h500 : (1/2 : ℝ) * 100 * 10 = ((500 : ℤ) : ℝ) := by norm_num
  rw [h500]
  unfold roundHalfEven
  rw [Int.fract_intCast, Int.floor_intCast]
  norm_num

/-- Witness for `c7_empty_row_score` on the everywhere-missing row. -/
theorem c7_empty_row_score_witness :
    (∀ c ∈ PREFERRED_FEATURES, (fun _ => (none : Option ℚ)) c = none) ∧
    (rule_based_score (fun _ => none) = 1/2 ∧
     roundPercent1 (rule_based_score (fun _ => none)) = 50) :=
  ⟨fun _ _ => rfl, c7_empty_row_score _ (fun _ _ => rfl)⟩

/-! ### Row shape of predict_attrition (src/modules/risk_model.py)

`predict_attrition` builds one probability per input row (`proba` has length
`len(df)` in both the learned and the rule-based branch), fills `社員ID` with
`np.arange(1, len(df)+1)` when absent, forms the result frame `(社員ID,
離職確率(%))`, left-merges the reference columns of the same dataframe back on
`社員ID` and sorts by probability descending.  The merge is the only step that
can change the row count: a pandas left merge emits one row per matching
right row, or one unmatched row.  Scores are abstracted to a list with one
entry per input row; reference columns are abstracted to the key list (the
payload is irrelevant to the row count). -/

/-- The identifier column actually used: the existing one, or
`np.arange(1, n+1)` when the column is absent. -/
def assignIds (ids : Option (List ℕ)) (n : ℕ) : List ℕ :=
  match ids with
  | some l => l
  | none => List.range' 1 n

/-- A pandas left merge of the result rows with a reference table keyed by
`社員ID`: each left row yields one output row per equal right key, or itself
when no right key matches. -/
def leftMergeOnId (left : List (ℕ × ℚ)) (rightIds : List ℕ) : List (ℕ × ℚ) :=
  left.flatMap (fun p =>
    match rightIds.filter (fun r => decide (r = p.1)) with
    | [] => [p]
    | l => l.map (fun _ => p))

/-- The result rows of `predict_attrition` as pairs (employee id, score):
zip the (possibly generated) ids with the per-row scores, left-merge the
reference columns when any exist, and sort by score descending. -/
def predictResultRows (ids0 : Option (List ℕ)) (scores : List ℚ)
    (hasRefCols : Bool) : List (ℕ × ℚ) :=
  let ids := assignIds ids0 scores.length
  let base := ids.zip scores
  let merged := if hasRefCols then leftMergeOnId base ids else base
  merged.mergeSort (fun a b => decide (b.2 ≤ a.2))

theorem filter_eq_singleton_of_nodup (a : ℕ) (l : List ℕ) (hn : l.Nodup)
    (ha : a ∈ l) : l.filter (fun r => decide (r = a)) = [a] := by
  induction l with
  | nil => cases ha
  | cons b t ih =>
      rcases List.mem_cons.mp ha with hba | hat
      · subst hba
        have hnb : a ∉ t := (List.nodup_cons.mp hn).1
        have ht : t.filter (fun r => decide (r = a)) = [] := by
          rw [List.filter_eq_nil_iff]
          intro x hx
          simp only [decide_eq_true_iff]
          intro hxa
          exact hnb (hxa ▸ hx)
        simp [List.filter_cons, ht]
      · have hba : b ≠ a := by
          intro hba
          exact (List.nodup_cons.mp hn).1 (hba ▸ hat)
        have := ih (List.nodup_cons.mp hn).2 hat
        simp [List.filter_cons, hba, this]

theorem leftMergeOnId_id (rightIds : List ℕ) (hn : rightIds.Nodup) :
    ∀ left : List (ℕ × ℚ), (∀ p ∈ left, p.1 ∈ rightIds) →
      leftMergeOnId left rightIds = left := by
  intro left
  induction left with
  | nil => intro _; rfl
  | cons p t ih =>
      intro h
      have hp : p.1 ∈ rightIds := h p (List.mem_cons_self p t)
      have hf := filter_eq_singleton_of_nodup p.1 rightIds hn hp
      have ht := ih (fun q hq => h q (List.mem_cons_of_mem p hq))
      simp only [leftMergeOnId, List.flatMap_cons] at *
      rw [hf, ht]
      rfl

/-- Claim C9: when the 社員ID values are pairwise distinct (or the column is
absent, in which case the 1-based sequence `np.arange(1, n+1)` is used),
`predict_attrition` returns exactly one result row per input row: the output
length equals the number of input rows even through the reference-column
left merge keyed on 社員ID. -/
theorem c9_row_count (ids0 : Option (List ℕ)) (scores : List ℚ) (hasRef : Bool)
    (h : ∀ l, ids0 = some l → l.Nodup ∧ l.length = scores.length) :
    (predictResultRows ids0 scores hasRef).length = scores.length := by
  have hids : (assignIds ids0 scores.length).Nodup ∧
      (assignIds ids0 scores.length).length = scores.length := by
    match ids0 with
    | some l => exact h l rfl
    | none =>
        refine ⟨List.nodup_range' _ _, ?_⟩
        simp [assignIds]
  unfold predictResultRows
  rw [List.length_mergeSort]
  have hbase : ((assignIds ids0 scores.length).zip scores).length = scores.length := by
    rw [List.length_zip, hids.2, min_self]
  cases hasRef with
  | false => simpa using hbase
  | true =>
      simp only [if_true]
      rw [leftMergeOnId_id _ hids.1 _ ?_]
      · exact hbase
      · intro p hp
        exact (List.mem_zip hp).1

/-- Witness for `c9_row_count` with explicit distinct ids [3, 1], two scores
and reference columns present. -/
theorem c9_row_count_witness :
    (∀ l, (some [3, 1] : Option (List ℕ)) = some l →
      l.Nodup ∧ l.length = [(1 : ℚ)/2, 1/4].length) ∧
    (predictResultRows (some [3, 1]) [(1 : ℚ)/2, 1/4] true).length =
      [(1 : ℚ)/2, 1/4].length := by
  have h : ∀ l, (some [3, 1] : Option (List ℕ)) = some l →
      l.Nodup ∧ l.length = [(1 : ℚ)/2, 1/4].length := by
    intro l hl
    injection hl with hl
    subst hl
    exact ⟨by decide, by decide⟩
  exact ⟨h, c9_row_count _ _ _ h⟩

/-! ### anonymize_ids (src/modules/utils.py)

`anonymize_ids(series, prefix="ID_", length=8)` maps every id `x` to
`prefix + sha256(salt.encode() + str(x).encode()).hexdigest()[:max(4, length)]`
with `salt = os.getenv("ANON_SALT", "hrtool")`.  SHA-256 is embedded in full
(32-bit words as naturals reduced mod 2^32) so that the pseudonym structure is
provable and the embedding is checked below against the standard test vectors
for the empty string and "abc". -/

/-- Reduction of a natural to a 32-bit word. -/
def w32 (n : ℕ) : ℕ := n % 4294967296

/-- Rotation of the 32-bit word `x` to the right by `n` positions. -/
def rotr32 (n x : ℕ) : ℕ := w32 ((x >>> n) ||| (x <<< (32 - n)))

/-- The 64 SHA-256 round constants (FIPS 180-4), written in decimal. -/
def shaK : List ℕ :=
  [1116352408, 1899447441, 3049323471, 3921009573, 961987163,
   1508970993, 2453635748, 2870763221, 3624381080, 310598401,
   607225278, 1426881987, 1925078388, 2162078206, 2614888103,
   3248222580, 3835390401, 4022224774, 264347078, 604807628,
   770255983, 1249150122, 1555081692, 1996064986, 2554220882,
   2821834349, 2952996808, 3210313671, 3336571891, 3584528711,
   113926993, 338241895, 666307205, 773529912, 1294757372,
   1396182291, 1695183700, 1986661051, 2177026350, 2456956037,
   2730485921, 2820302411, 3259730800, 3345764771, 3516065817,
   3600352804, 4094571909, 275423344, 430227734, 506948616,
   659060556, 883997877, 958139571, 1322822218, 1537002063,
   1747873779, 1955562222, 2024104815, 2227730452, 2361852424,
   2428436474, 2756734187, 3204031479, 3329325298]

/-- The eight SHA-256 working words (h is written hh). -/
structure Sha256State where
  a : ℕ
  b : ℕ
  c : ℕ
  d : ℕ
  e : ℕ
  f : ℕ
  g : ℕ
  hh : ℕ

/-- The SHA-256 initial hash value (FIPS 180-4), written in decimal. -/
def sha256Init : Sha256State :=
  ⟨1779033703, 3144134277, 1013904242, 2773480762,
   1359893119, 2600822924, 528734635, 1541459225⟩

/-- Big-endian byte serialization of `n` on `k` bytes. -/
def bytesBE (k n : ℕ) : List ℕ :=
  (List.range k).map (fun i => (n >>> (8 * (k - 1 - i))) % 256)

/-- SHA-256 message padding: the 0x80 byte, zeros to 56 mod 64, and the
bit length on 8 big-endian bytes. -/
def sha256Pad (msg : List ℕ) : List ℕ :=
  msg ++ [128] ++ List.replicate ((64 - ((msg.length + 9) % 64)) % 64) 0 ++
    bytesBE 8 (8 * msg.length)

/-- Big-endian grouping of bytes into 32-bit words. -/
def toWords : List ℕ → List ℕ
  | b0 :: b1 :: b2 :: b3 :: rest => (((b0 * 256 + b1) * 256 + b2) * 256 + b3) :: toWords rest
  | _ => []

/-- The σ0 message-schedule function. -/
def smallS0 (x : ℕ) : ℕ := w32 (rotr32 7 x ^^^ rotr32 18 x ^^^ (x >>> 3))

/-- The σ1 message-schedule function. -/
def smallS1 (x : ℕ) : ℕ := w32 (rotr32 17 x ^^^ rotr32 19 x ^^^ (x >>> 10))

/-- The Σ0 compression function. -/
def bigS0 (x : ℕ) : ℕ := w32 (rotr32 2 x ^^^ rotr32 13 x ^^^ rotr32 22 x)

/-- The Σ1 compression function. -/
def bigS1 (x : ℕ) : ℕ := w32 (rotr32 6 x ^^^ rotr32 11 x ^^^ rotr32 25 x)

/-- Extension of the 16 block words to the 64-word message schedule. -/
def extendSchedule (w0 : List ℕ) : List ℕ :=
  (List.range 48).foldl (fun w _ =>
    let n := w.length
    w ++ [w32 (smallS1 (w.getD (n - 2) 0) + w.getD (n - 7) 0 +
               smallS0 (w.getD (n - 15) 0) + w.getD (n - 16) 0)]) w0

/-- One SHA-256 round: the state update for a (word, constant) pair. -/
def shaCompress (st : Sha256State) (wk : ℕ × ℕ) : Sha256State :=
  let ch := (st.e &&& st.f) ^^^ ((st.e ^^^ 4294967295) &&& st.g)
  let maj := (st.a &&& st.b) ^^^ (st.a &&& st.c) ^^^ (st.b &&& st.c)
  let t1 := w32 (st.hh + bigS1 st.e + ch + wk.2 + wk.1)
  let t2 := w32 (bigS0 st.a + maj)
  ⟨w32 (t1 + t2), st.a, st.b, st.c, w32 (st.d + t1), st.e, st.f, st.g⟩

/-- Compression of one 64-byte block into the running hash. -/
def processBlock (H : Sha256State) (block : List ℕ) : Sha256State :=
  let W := extendSchedule (toWords block)
  let st := (W.zip shaK).foldl shaCompress H
  ⟨w32 (H.a + st.a), w32 (H.b + st.b), w32 (H.c + st.c), w32 (H.d + st.d),
   w32 (H.e + st.e), w32 (H.f + st.f), w32 (H.g + st.g), w32 (H.hh + st.hh)⟩

/-- Fuelled 64-byte chunker (structural recursion so that concrete digests
reduce inside the kernel; the fuel is the list length, which bounds the
number of chunks). -/
def chunks64Fuel : ℕ → List ℕ → List (List ℕ)
  | _, [] => []
  | 0, _ :: _ => []
  | fuel + 1, x :: rest => ((x :: rest).take 64) :: chunks64Fuel fuel ((x :: rest).drop 64)

/-- Split a byte list into 64-byte chunks. -/
def chunks64 (l : List ℕ) : List (List ℕ) := chunks64Fuel l.length l

/-- The SHA-256 digest (32 bytes) of a byte string. -/
def sha256Bytes (msg : List ℕ) : List ℕ :=
  let fin := (chunks64 (sha256Pad msg)).foldl processBlock sha256Init
  bytesBE 4 fin.a ++ bytesBE 4 fin.b ++ bytesBE 4 fin.c ++ bytesBE 4 fin.d ++
  bytesBE 4 fin.e ++ bytesBE 4 fin.f ++ bytesBE 4 fin.g ++ bytesBE 4 fin.hh

/-- Lower-case hex digit of a nibble. -/
def hexChar (n : ℕ) : Char := if n < 10 then Char.ofNat (48 + n) else Char.ofNat (87 + n)

/-- Lower-case hex rendering of a byte list (`hexdigest()`). -/
def hexChars (bytes : List ℕ) : List Char :=
  bytes.flatMap (fun b => [hexChar (b / 16), hexChar (b % 16)])

/-- The characters of `sha256(msg).hexdigest()`. -/
def sha256HexChars (msg : List ℕ) : List Char := hexChars (sha256Bytes msg)

/-- UTF-8 encoding of one character (`str.encode("utf-8")` per character). -/
def charBytes (c : Char) : List ℕ :=
  let n := c.toNat
  if n < 128 then [n]
  else if n < 2048 then [192 ||| (n >>> 6), 128 ||| (n &&& 63)]
  else if n < 65536 then
    [224 ||| (n >>> 12), 128 ||| ((n >>> 6) &&& 63), 128 ||| (n &&& 63)]
  else
    [240 ||| (n >>> 18), 128 ||| ((n >>> 12) &&& 63), 128 ||| ((n >>> 6) &&& 63),
     128 ||| (n &&& 63)]

/-- UTF-8 encoding of a string (`.encode("utf-8")`). -/
def strBytes (s : String) : List ℕ := s.data.flatMap charBytes

/-- The default salt used when the ANON_SALT environment variable is unset. -/
def defaultSalt : String := "hrtool"

/-- The `_mask` closure of `anonymize_ids`: prefix plus the first
`max(4, length)` hex characters of the salted digest. -/
def maskId (salt pre : String) (len : ℕ) (x : String) : String :=
  pre ++ String.mk ((sha256HexChars (strBytes salt ++ strBytes x)).take (max 4 len))

/-- `anonymize_ids`: the mask applied to every (stringified) id of the
series. -/
def anonymize_ids (salt pre : String) (len : ℕ) (series : List String) : List String :=
  series.map (maskId salt pre len)

/-- The sixteen lower-case hex digits. -/
def hexDigits : List Char := "0123456789abcdef".data

set_option maxRecDepth 40000 in
/-- Sanity check of the SHA-256 embedding against the standard test vector
for the empty message. -/
theorem sha256_empty_vector :
    String.mk (sha256HexChars (strBytes "")) =
      "e3b0c44298fc1c149afbf4c8996fb92427ae41e4649b934ca495991b7852b855" := by
  rfl

set_option maxRecDepth 40000 in
/-- Sanity check of the SHA-256 embedding against the standard test vector
for "abc". -/
theorem sha256_abc_vector :
    String.mk (sha256HexChars (strBytes "abc")) =
      "ba7816bf8f01cfea414140de5dae2223b00361a396177a9cb410ff61f20015ad" := by
  rfl

theorem bytesBE_length (k n : ℕ) : (bytesBE k n).length = k := by
  simp [bytesBE]

theorem bytesBE_lt (k n : ℕ) : ∀ b ∈ bytesBE k n, b < 256 := by
  intro b hb
  simp only [bytesBE, List.mem_map] at hb
  obtain ⟨i, _, rfl⟩ := hb
  exact Nat.mod_lt _ (by norm_num)

theorem sha256Bytes_length (m : List ℕ) : (sha256Bytes m).length = 32 := by
  simp [sha256Bytes, List.length_append, bytesBE_length]

theorem sha256Bytes_lt (m : List ℕ) : ∀ b ∈ sha256Bytes m, b < 256 := by
  intro b hb
  simp only [sha256Bytes, List.mem_append] at hb
  rcases hb with ((((((hb | hb) | hb) | hb) | hb) | hb) | hb) | hb <;>
    exact bytesBE_lt 4 _ b hb

theorem hexChars_length (bs : List ℕ) : (hexChars bs).length = 2 * bs.length := by
  induction bs with
  | nil => rfl
  | cons b t ih =>
      simp only [hexChars, List.flatMap_cons] at *
      simp [ih]
      ring

theorem hexChar_mem (n : ℕ) (h : n < 16) : hexChar n ∈ hexDigits := by
  have hall : ∀ m ∈ List.range 16, hexChar m ∈ hexDigits := by decide
  exact hall n (List.mem_range.mpr h)

theorem hexChars_mem (bs : List ℕ) (hb : ∀ b ∈ bs, b < 256) :
    ∀ c ∈ hexChars bs, c ∈ hexDigits := by
  intro c hc
  simp only [hexChars, List.mem_flatMap] at hc
  obtain ⟨b, hbm, hcm⟩ := hc
  have hblt := hb b hbm
  have hdiv : b / 16 < 16 := by
    apply Nat.div_lt_of_lt_mul
    omega
  have hmod : b % 16 < 16 := Nat.mod_lt _ (by norm_num)
  rcases List.mem_cons.mp hcm with rfl | hcm2
  · exact hexChar_mem _ hdiv
  · rcases List.mem_cons.mp hcm2 with rfl | hcm3
    · exact hexChar_mem _ hmod
    · cases hcm3

/-- Claim C8: `anonymize_ids` is deterministic — equal salt and equal input
series give identical outputs — and every pseudonym is the constant prefix
followed by the first `max(4, length)` characters of the 64-character
lower-case hex digest of the salted SHA-256 hash of the stringified id, so
its length is `prefix length + min (max 4 length) 64`. -/
theorem c8_anonymize_spec (salt pre : String) (len : ℕ) (series : List String)
    (i : ℕ) (hi : i < series.length) :
    (∀ salt2 series2, salt2 = salt → series2 = series →
      anonymize_ids salt2 pre len series2 = anonymize_ids salt pre len series) ∧
    (anonymize_ids salt pre len series).getD i "" =
      pre ++ String.mk
        ((sha256HexChars (strBytes salt ++ strBytes (series.getD i ""))).take (max 4 len)) ∧
    (sha256HexChars (strBytes salt ++ strBytes (series.getD i ""))).length = 64 ∧
    (∀ c ∈ sha256HexChars (strBytes salt ++ strBytes (series.getD i "")), c ∈ hexDigits) ∧
    ((anonymize_ids salt pre len series).getD i "").length =
      pre.length + min (max 4 len) 64 := by
  have hlen : (sha256HexChars (strBytes salt ++ strBytes (series.getD i ""))).length = 64 := by
    rw [sha256HexChars, hexChars_length, sha256Bytes_length]
  have hgd : (anonymize_ids salt pre len series).getD i "" =
      maskId salt pre len (series.getD i "") :=
    getD_map_of_lt _ _ i "" "" hi
  refine ⟨?_, ?_, hlen, ?_, ?_⟩
  · intro salt2 series2 h1 h2
    rw [h1, h2]
  · rw [hgd]; rfl
  · exact hexChars_mem _ (sha256Bytes_lt _)
  · rw [hgd, maskId, String.length_append]
    have h2 : (String.mk ((sha256HexChars (strBytes salt ++
        strBytes (series.getD i ""))).take (max 4 len))).length =
        min (max 4 len) 64 := by
      show ((sha256HexChars (strBytes salt ++
        strBytes (series.getD i ""))).take (max 4 len)).length = min (max 4 len) 64
      rw [List.length_take, hlen]
    rw [h2]

/-- Witness for `c8_anonymize_spec` with the default salt, the default prefix
"ID_" and length 8, on the one-element series ["1"]. -/
theorem c8_anonymize_spec_witness :
    0 < (["1"] : List String).length ∧
    ((∀ salt2 series2, salt2 = defaultSalt → series2 = ["1"] →
      anonymize_ids salt2 "ID_" 8 series2 = anonymize_ids defaultSalt "ID_" 8 ["1"]) ∧
    (anonymize_ids defaultSalt "ID_" 8 ["1"]).getD 0 "" =
      "ID_" ++ String.mk
        ((sha256HexChars (strBytes defaultSalt ++
          strBytes ((["1"] : List String).getD 0 ""))).take (max 4 8)) ∧
    (sha256HexChars (strBytes defaultSalt ++
      strBytes ((["1"] : List String).getD 0 ""))).length = 64 ∧
    (∀ c ∈ sha256HexChars (strBytes defaultSalt ++
      strBytes ((["1"] : List String).getD 0 "")), c ∈ hexDigits) ∧
    ((anonymize_ids defaultSalt "ID_" 8 ["1"]).getD 0 "").length =
      "ID_".length + min (max 4 8) 64) :=
  ⟨by decide, c8_anonymize_spec defaultSalt "ID_" 8 ["1"] 0 (by decide)⟩

end HrRisk
